import Mathlib

/-!
Verification of the bounded concurrent connection pool of `posix_libPq`
(`src/core/ConnectionPool.cpp`, `include/pq/core/ConnectionPool.hpp`).

The pool's shared mutable state (`ConnectionPoolState`) is embedded as a plain
structure; every critical section of the C++ code (a region executed while the
single mutex is held) becomes one atomic action of a labelled step function
`sysStep`.  Interleavings of concurrent `acquire` / `release` / `drain` /
`shutdown` calls are lists of such actions; blocking I/O performed with the
lock released (resource creation, validation) is modelled by the thread
parking in an intermediate program-counter state (`creating`, `validating`)
between two actions, during which arbitrary other actions may interleave.
-/

namespace PoolSpec

/-- Abstract model of one `Connection` object.  `connected` is the value
`isConnected()` reports; `probeOk` is whether `execute ("SELECT 1")` on it
returns a value (`QueryResult`) rather than an error. -/
structure Conn where
  id : Nat
  connected : Bool
  probeOk : Bool
deriving DecidableEq, Repr

/-- Model of `pq::DbError` from `Result.hpp`: message, SQLSTATE, numeric code. -/
structure DbError where
  message : String
  sqlState : String
  errorCode : Int
deriving DecidableEq, Repr

/-- Model of `DbResult<T>` = `Result<T, DbError>`. -/
abbrev DbResult (α : Type) : Type := Except DbError α

instance (α : Type) [DecidableEq α] : DecidableEq (Except DbError α) := fun x y =>
  match x, y with
  | .ok a, .ok b =>
      if h : a = b then .isTrue (by rw [h]) else .isFalse (by simp [h])
  | .error a, .error b =>
      if h : a = b then .isTrue (by rw [h]) else .isFalse (by simp [h])
  | .ok _, .error _ => .isFalse (by simp)
  | .error _, .ok _ => .isFalse (by simp)

/-- The error `acquire` returns when the pool is (or is observed) shut down:
`DbError{"Pool is shutdown"}` (ConnectionPool.cpp lines 92, 112, 154). -/
def poolShutdownError : DbError := ⟨"Pool is shutdown", "", 0⟩

/-- The error `acquire` returns on deadline expiry:
`DbError{"Timeout waiting for connection from pool"}` (lines 149-150). -/
def acquireTimeoutError : DbError := ⟨"Timeout waiting for connection from pool", "", 0⟩

/-- A factory (connection-creation) error: `Connection::makeError("connect")`
produces `DbError{"connect: " + lastError(), "", 0}` (Connection.cpp 343-351);
this is the error `ConnectionPool::createConnection` propagates. -/
def connectError (detail : String) : DbError := ⟨"connect: " ++ detail, "", 0⟩

/-- Model of `PoolConfig` (ConnectionPool.hpp lines 27-34).  Durations in ms. -/
structure PoolConfig where
  connectionString : String
  maxSize : Nat
  minSize : Nat
  acquireTimeoutMs : Nat
  idleTimeoutMs : Nat
  validateOnAcquire : Bool

/-- Model of `ConnectionPoolState` (ConnectionPool.hpp lines 42-49): the data guarded
by the single mutex (the mutex and condition variable themselves are modelled
by the atomicity of the steps). -/
structure PoolSt where
  idle : List Conn
  activeCount : Nat
  pendingCreates : Nat
  shutdown : Bool
deriving DecidableEq, Repr

/-- The sum `activeCount + idle.size() + pendingCreates`, the quantity bounded by I1
(and the value `totalCount()` reports, lines 169-172). -/
def PoolSt.total (p : PoolSt) : Nat :=
  p.activeCount + p.idle.length + p.pendingCreates

/-- The defensive decrement used throughout the pool:
`if (counter > 0) --counter;`. -/
def flooredDec (n : Nat) : Nat := if 0 < n then n - 1 else n

/-- Model of `ConnectionPool::validateConnection` (lines 197-205): false when not
connected, otherwise the result of the `SELECT 1` probe. -/
def validateConnection (c : Conn) : Bool := c.connected && c.probeOk

/-- The locked body of `PooledConnection::release` (lines 47-59): defensively
decrement `activeCount`; re-idle the connection (push_back) when the pool is
not shut down and the connection is still connected, otherwise discard it.
(`cv.notify_one()` is recorded by the callers.) -/
def releaseLocked (p : PoolSt) (c : Conn) : PoolSt :=
  let p1 : PoolSt := { p with activeCount := flooredDec p.activeCount }
  if !p1.shutdown && c.connected then { p1 with idle := p1.idle ++ [c] } else p1

/-- Condition-variable events, recorded in an observation log. -/
inductive CvEvent where
  | notifyOne
  | notifyAll
deriving DecidableEq, Repr

/-- Program counter of one thread executing `ConnectionPool::acquire`.
`validating c d` / `creating d` are the two unlocked blocking-I/O windows
(`deadline` value `d` is the thread-local `deadline` computed at entry);
`waiting d` is a thread blocked in `cv.wait_until(lock, deadline)`;
`done r` is a finished call with its `DbResult<PooledConnection>`. -/
inductive AcqPC where
  | validating (c : Conn) (deadline : Nat)
  | creating (deadline : Nat)
  | waiting (deadline : Nat)
  | done (r : Except DbError Conn)
deriving DecidableEq, Repr

/-- Whole-system state: the shared pool state, the program counters of the
threads currently inside (or finished with) an `acquire` call, the
connections held by outstanding (not yet released) leases, and the log of
condition-variable notifications. -/
structure Sys where
  pool : PoolSt
  threads : List AcqPC
  leases : List Conn
  log : List CvEvent
deriving DecidableEq, Repr

/-- One iteration of the `while (true)` loop body of `acquire`
(lines 97-156), executed under the lock up to the next unlock point:
pop the back of `idle` and reserve an `activeCount` slot (lines 99-104),
else reserve a creation slot when under capacity (lines 127-129),
else block on the condition variable (line 148). -/
def loopBody (cfg : PoolConfig) (d : Nat) (p : PoolSt) : PoolSt × AcqPC :=
  match p.idle.getLast? with
  | some c =>
      ({ p with idle := p.idle.dropLast, activeCount := p.activeCount + 1 },
       .validating c d)
  | none =>
      if p.activeCount + p.idle.length + p.pendingCreates < cfg.maxSize then
        ({ p with pendingCreates := p.pendingCreates + 1 }, .creating d)
      else
        (p, .waiting d)

/-- Actions: one per critical section of the pool code, labelled with the
scheduling and environment choices (which thread moves, wall-clock readings,
the factory's outcome). -/
inductive Act where
  | startAcquire (now timeoutMs : Nat)
  | postValidate (i : Nat)
  | postCreate (i : Nat) (res : Except DbError Conn)
  | wake (i : Nat) (now : Nat)
  | releaseLease (i : Nat)
  | drain
  | shutdownAct
deriving DecidableEq, Repr

/-- The atomic step function.  Each branch is one locked region of
ConnectionPool.cpp:
* `startAcquire`: entry of `acquire(timeout)` (lines 88-96: shutdown check,
  deadline = now + timeout) followed by the first loop iteration.
* `postValidate i`: thread `i` relocks after the unlocked validation
  (lines 105-123): shutdown observed → roll back and fail; validation failed
  → roll back and run the next loop iteration; else return the lease.
* `postCreate i res`: thread `i` relocks after `createConnection()`
  (lines 131-144): drop the `pendingCreates` reservation; on success count
  the connection active and return the lease; on failure notify one waiter
  and propagate the factory error.
* `wake i now`: `cv.wait_until` returns (lines 148-155): timeout status when
  the deadline has passed, else shutdown check, else next loop iteration.
* `releaseLease i`: the locked body of `PooledConnection::release` for an
  outstanding lease (lines 40-64), with its `notify_one`.
* `drain` (lines 174-177) and `shutdownAct` (lines 179-184). -/
def sysStep (cfg : PoolConfig) (a : Act) (s : Sys) : Option Sys :=
  match a with
  | .startAcquire now tmo =>
      if s.pool.shutdown then
        some { s with threads := s.threads ++ [.done (.error poolShutdownError)] }
      else
        let r := loopBody cfg (now + tmo) s.pool
        some { s with pool := r.1, threads := s.threads ++ [r.2] }
  | .postValidate i =>
      match s.threads.get? i with
      | some (.validating c d) =>
          let isValid := !cfg.validateOnAcquire || validateConnection c
          if s.pool.shutdown then
            some { s with
                   pool := { s.pool with activeCount := flooredDec s.pool.activeCount },
                   threads := s.threads.set i (.done (.error poolShutdownError)) }
          else if !isValid then
            let r := loopBody cfg d
              { s.pool with activeCount := flooredDec s.pool.activeCount }
            some { s with pool := r.1, threads := s.threads.set i r.2 }
          else
            some { s with threads := s.threads.set i (.done (.ok c)),
                          leases := s.leases ++ [c] }
      | _ => none
  | .postCreate i res =>
      match s.threads.get? i with
      | some (.creating _) =>
          let p1 : PoolSt :=
            { s.pool with pendingCreates := flooredDec s.pool.pendingCreates }
          match res with
          | .ok c =>
              some { s with pool := { p1 with activeCount := p1.activeCount + 1 },
                            threads := s.threads.set i (.done (.ok c)),
                            leases := s.leases ++ [c] }
          | .error e =>
              some { s with pool := p1,
                            threads := s.threads.set i (.done (.error e)),
                            log := s.log ++ [.notifyOne] }
      | _ => none
  | .wake i now =>
      match s.threads.get? i with
      | some (.waiting d) =>
          if d ≤ now then
            some { s with
                   threads := s.threads.set i (.done (.error acquireTimeoutError)) }
          else if s.pool.shutdown then
            some { s with
                   threads := s.threads.set i (.done (.error poolShutdownError)) }
          else
            let r := loopBody cfg d s.pool
            some { s with pool := r.1, threads := s.threads.set i r.2 }
      | _ => none
  | .releaseLease i =>
      match s.leases.get? i with
      | some c =>
          some { s with pool := releaseLocked s.pool c,
                        leases := s.leases.eraseIdx i,
                        log := s.log ++ [.notifyOne] }
      | none => none
  | .drain =>
      some { s with pool := { s.pool with idle := [] } }
  | .shutdownAct =>
      some { s with pool := { s.pool with shutdown := true, idle := [] },
                    log := s.log ++ [.notifyAll] }

/-- The constructor's warm-up loop (lines 71-77): call `createConnection`
`minSize` times, pushing each success onto `idle`; `create n` is the outcome
of the n-th factory call. -/
def warmUp (create : Nat → Except DbError Conn) : Nat → List Conn
  | 0 => []
  | n + 1 =>
      warmUp create n ++
        (match create n with
         | .ok c => [c]
         | .error _ => [])

/-- Model of `ConnectionPool::ConnectionPool` (lines 68-78): fresh state with the
warm-up results idle, zero counters, not shut down. -/
def mkPool (cfg : PoolConfig) (create : Nat → Except DbError Conn) : PoolSt :=
  { idle := warmUp create cfg.minSize
    activeCount := 0
    pendingCreates := 0
    shutdown := false }

/-- A freshly constructed system: no acquire calls in flight, no leases. -/
def initSys (cfg : PoolConfig) (create : Nat → Except DbError Conn) : Sys :=
  { pool := mkPool cfg create, threads := [], leases := [], log := [] }

/-- Run a list of actions from a state (`none` when some action does not
apply, e.g. names a thread that is not at the matching program point). -/
def runSys (cfg : PoolConfig) : List Act → Sys → Option Sys
  | [], s => some s
  | a :: acts, s =>
      match sysStep cfg a s with
      | some s' => runSys cfg acts s'
      | none => none

/-- States reachable from construction under some interleaving. -/
def Reachable (cfg : PoolConfig) (create : Nat → Except DbError Conn)
    (s : Sys) : Prop :=
  ∃ acts, runSys cfg acts (initSys cfg create) = some s

/-- Thread is inside the unlocked validation window (it holds an
`activeCount` reservation). -/
def isValidating : AcqPC → Bool
  | .validating _ _ => true
  | _ => false

/-- Thread is inside the unlocked creation window (it holds a
`pendingCreates` reservation). -/
def isCreating : AcqPC → Bool
  | .creating _ => true
  | _ => false

/-- Number of threads currently in the validation window. -/
def cntV (ts : List AcqPC) : Nat := ts.countP isValidating

/-- Number of threads currently in the creation window. -/
def cntC (ts : List AcqPC) : Nat := ts.countP isCreating

/-- The inductive invariant: capacity bound I1 together with the two
accounting facts that make it inductive (every outstanding lease and every
validation window is backed by an `activeCount` unit; every creation window
is backed by a `pendingCreates` unit). -/
def goodCounts (cfg : PoolConfig) (s : Sys) : Prop :=
  s.pool.total ≤ cfg.maxSize ∧
  s.leases.length + cntV s.threads ≤ s.pool.activeCount ∧
  cntC s.threads ≤ s.pool.pendingCreates

/-- The `deadline` local variable carried by a thread still inside `acquire`
(none once the call finished). -/
def deadlineOf : AcqPC → Option Nat
  | .validating _ d => some d
  | .creating d => some d
  | .waiting d => some d
  | .done _ => none

/-- Does this program point own connection `c` (either holding it inside the
validation window or having returned it as a lease)? -/
def pcHolds (c : Conn) : AcqPC → Bool
  | .validating c2 _ => c2 == c
  | .done (.ok c2) => c2 == c
  | _ => false

/-- Connection `c` occurs nowhere in the system: not idle, not leased and
not held by any thread. -/
def ConnFree (c : Conn) (s : Sys) : Prop :=
  c ∉ s.pool.idle ∧ c ∉ s.leases ∧ ∀ pc ∈ s.threads, pcHolds c pc = false

/-- Does the action inject connection `c` into the system (a factory call
returning exactly `c`)? -/
def injects (c : Conn) : Act → Bool
  | .postCreate _ (.ok c2) => c2 == c
  | _ => false

/-- The factory errors fed into the system by a list of actions. -/
def actErrors : List Act → List DbError :=
  List.filterMap fun a =>
    match a with
    | .postCreate _ (.error e) => some e
    | _ => none

/-- Every finished thread's error is the shutdown error, the timeout error,
or one of the allowed factory errors: no other error value (in particular no
validation-failure error) is ever returned by `acquire`. -/
def ErrOk (E : List DbError) (s : Sys) : Prop :=
  ∀ pc ∈ s.threads, ∀ e, pc = AcqPC.done (.error e) →
    e = poolShutdownError ∨ e = acquireTimeoutError ∨ e ∈ E

/-- Model of `PooledConnection` (ConnectionPool.hpp lines 59-93): the lease handle.
`hasState` models whether the `shared_ptr` to the pool state is non-null;
`conn` models the owned `unique_ptr<Connection>` (`none` after release or
move). -/
structure PooledConnection where
  hasState : Bool
  conn : Option Conn
deriving DecidableEq, Repr

/-- Model of `PooledConnection::release` (ConnectionPool.cpp lines 40-64), which the
destructor (lines 32-34) also calls.  Given the handle and the current pool
state, returns the handle afterwards (always empty), the pool state
afterwards, and the condition-variable notifications performed.  With no
connection held it only resets the state pointer; otherwise, when the state
pointer is live, it runs the locked region `releaseLocked` and notifies one
waiter. -/
def PooledConnection.release (pc : PooledConnection) (p : PoolSt) :
    PooledConnection × PoolSt × List CvEvent :=
  match pc.conn with
  | none => (⟨false, none⟩, p, [])
  | some c =>
      if pc.hasState then
        (⟨false, none⟩, releaseLocked p c, [.notifyOne])
      else
        (⟨false, none⟩, p, [])

/-- Move assignment `PooledConnection::operator=(PooledConnection&&)`
(lines 23-30), for distinct source and target objects (the self-assignment
guard makes self-assignment a no-op): release the target first, then steal
the source's state reference and connection, leaving the source empty.
Returns (new target, new source, pool state afterwards, notifications). -/
def PooledConnection.moveAssign (target src : PooledConnection)
    (p : PoolSt) : PooledConnection × PooledConnection × PoolSt × List CvEvent :=
  let r := target.release p
  (⟨src.hasState, src.conn⟩, ⟨false, none⟩, r.2.1, r.2.2)

theorem flooredDec_of_pos {n : Nat} (h : 0 < n) : flooredDec n = n - 1 := by
  simp [flooredDec, h]

theorem countP_set_get? {α : Type} (p : α → Bool) (l : List α) (i : Nat)
    (x y : α) (h : l.get? i = some y) :
    (l.set i x).countP p + (if p y then 1 else 0)
      = l.countP p + (if p x then 1 else 0) := by
  induction l generalizing i with
  | nil => simp at h
  | cons a t ih =>
      cases i with
      | zero =>
          simp only [List.get?] at h
          injection h with h
          subst h
          simp only [List.set, List.countP_cons]
          omega
      | succ n =>
          simp only [List.get?] at h
          have hrec := ih n h
          simp only [List.set, List.countP_cons]
          omega

theorem getLast?_decomp {α : Type} {l : List α} {c : α}
    (h : l.getLast? = some c) : l = l.dropLast ++ [c] := by
  rcases List.getLast?_eq_some_iff.mp h with ⟨ys, rfl⟩
  rw [List.dropLast_concat]

theorem length_of_getLast? {α : Type} {l : List α} {c : α}
    (h : l.getLast? = some c) : l.length = l.dropLast.length + 1 := by
  conv_lhs => rw [getLast?_decomp h]
  simp

/-- Case analysis of one loop iteration, with the facts each branch needs. -/
theorem loopBody_cases (cfg : PoolConfig) (d : Nat) (p : PoolSt) :
    (∃ c, p.idle.getLast? = some c ∧
      loopBody cfg d p =
        ({ p with idle := p.idle.dropLast, activeCount := p.activeCount + 1 },
         .validating c d) ∧
      p.idle.length = p.idle.dropLast.length + 1) ∨
    (p.idle = [] ∧ p.total < cfg.maxSize ∧
      loopBody cfg d p =
        ({ p with pendingCreates := p.pendingCreates + 1 }, .creating d)) ∨
    (p.idle = [] ∧ ¬ p.total < cfg.maxSize ∧
      loopBody cfg d p = (p, .waiting d)) := by
  cases hl : p.idle.getLast? with
  | some c =>
      refine Or.inl ⟨c, rfl, ?_, length_of_getLast? hl⟩
      simp [loopBody, hl]
  | none =>
      have hnil : p.idle = [] := List.getLast?_eq_none_iff.mp hl
      by_cases hlt : p.activeCount + p.idle.length + p.pendingCreates < cfg.maxSize
      · exact Or.inr (Or.inl ⟨hnil, by simpa [PoolSt.total] using hlt,
          by simp [loopBody, hl, hlt]⟩)
      · exact Or.inr (Or.inr ⟨hnil, by simpa [PoolSt.total] using hlt,
          by simp [loopBody, hl, hlt]⟩)

theorem cntV_append_one (ts : List AcqPC) (pc : AcqPC) :
    cntV (ts ++ [pc]) = cntV ts + (if isValidating pc then 1 else 0) := by
  simp [cntV, List.countP_append, List.countP_cons]

theorem cntC_append_one (ts : List AcqPC) (pc : AcqPC) :
    cntC (ts ++ [pc]) = cntC ts + (if isCreating pc then 1 else 0) := by
  simp [cntC, List.countP_append, List.countP_cons]

theorem cntV_set {ts : List AcqPC} {i : Nat} {y : AcqPC} (x : AcqPC)
    (h : ts.get? i = some y) :
    cntV (ts.set i x) + (if isValidating y then 1 else 0)
      = cntV ts + (if isValidating x then 1 else 0) :=
  countP_set_get? isValidating ts i x y h

theorem cntC_set {ts : List AcqPC} {i : Nat} {y : AcqPC} (x : AcqPC)
    (h : ts.get? i = some y) :
    cntC (ts.set i x) + (if isCreating y then 1 else 0)
      = cntC ts + (if isCreating x then 1 else 0) :=
  countP_set_get? isCreating ts i x y h

theorem goodCounts_start {cfg : PoolConfig} {s s' : Sys} {now tmo : Nat}
    (hg : goodCounts cfg s)
    (h : sysStep cfg (.startAcquire now tmo) s = some s') :
    goodCounts cfg s' := by
  obtain ⟨hg1, hg2, hg3⟩ := hg
  simp only [sysStep] at h
  by_cases hsd : s.pool.shutdown = true
  · rw [if_pos hsd] at h
    injection h with h
    subst h
    exact ⟨hg1,
      by simpa [cntV_append_one, isValidating] using hg2,
      by simpa [cntC_append_one, isCreating] using hg3⟩
  · rw [if_neg hsd] at h
    rcases loopBody_cases cfg (now + tmo) s.pool with
      ⟨c, hl, he, hlen⟩ | ⟨hnil, hlt, he⟩ | ⟨hnil, hlt, he⟩ <;>
      simp only [he, Option.some.injEq] at h <;> subst h
    · refine ⟨?_, ?_, ?_⟩
      · simpa [PoolSt.total] using by
          simp only [PoolSt.total] at hg1; omega
      · simpa [cntV_append_one, isValidating] using by omega
      · simpa [cntC_append_one, isCreating] using hg3
    · refine ⟨?_, ?_, ?_⟩
      · simp only [PoolSt.total] at hlt ⊢; omega
      · simpa [cntV_append_one, isValidating] using hg2
      · simpa [cntC_append_one, isCreating] using by omega
    · exact ⟨hg1,
        by simpa [cntV_append_one, isValidating] using hg2,
        by simpa [cntC_append_one, isCreating] using hg3⟩

theorem releaseLocked_shape (p : PoolSt) (c : Conn) (h : 0 < p.activeCount) :
    (releaseLocked p c).total ≤ p.total ∧
    (releaseLocked p c).activeCount = p.activeCount - 1 ∧
    (releaseLocked p c).pendingCreates = p.pendingCreates := by
  simp only [releaseLocked, flooredDec_of_pos h]
  split
  · refine ⟨?_, rfl, rfl⟩
    simp only [PoolSt.total, List.length_append, List.length_cons, List.length_nil]
    omega
  · refine ⟨?_, rfl, rfl⟩
    simp only [PoolSt.total]
    omega

theorem goodCounts_release {cfg : PoolConfig} {s s' : Sys} {i : Nat}
    (hg : goodCounts cfg s)
    (h : sysStep cfg (.releaseLease i) s = some s') :
    goodCounts cfg s' := by
  obtain ⟨hg1, hg2, hg3⟩ := hg
  simp only [sysStep] at h
  split at h
  · rename_i c hl
    injection h with h
    subst h
    have hilt : i < s.leases.length := (List.get?_eq_some.mp hl).1
    have hlen : (s.leases.eraseIdx i).length = s.leases.length - 1 := by
      rw [List.length_eraseIdx]
      simp [hilt]
    have hact : 0 < s.pool.activeCount := by omega
    obtain ⟨hr1, hr2, hr3⟩ := releaseLocked_shape s.pool c hact
    refine ⟨?_, ?_, ?_⟩
    · show (releaseLocked s.pool c).total ≤ cfg.maxSize
      omega
    · show (s.leases.eraseIdx i).length + cntV s.threads
        ≤ (releaseLocked s.pool c).activeCount
      rw [hr2, hlen]
      omega
    · show cntC s.threads ≤ (releaseLocked s.pool c).pendingCreates
      rw [hr3]
      exact hg3
  · exact absurd h (by simp)

theorem goodCounts_drain {cfg : PoolConfig} {s s' : Sys}
    (hg : goodCounts cfg s)
    (h : sysStep cfg .drain s = some s') :
    goodCounts cfg s' := by
  obtain ⟨hg1, hg2, hg3⟩ := hg
  simp only [sysStep] at h
  injection h with h
  subst h
  refine ⟨?_, hg2, hg3⟩
  simp only [PoolSt.total, List.length_nil] at hg1 ⊢
  omega

theorem goodCounts_shutdown {cfg : PoolConfig} {s s' : Sys}
    (hg : goodCounts cfg s)
    (h : sysStep cfg .shutdownAct s = some s') :
    goodCounts cfg s' := by
  obtain ⟨hg1, hg2, hg3⟩ := hg
  simp only [sysStep] at h
  injection h with h
  subst h
  refine ⟨?_, hg2, hg3⟩
  simp only [PoolSt.total, List.length_nil] at hg1 ⊢
  omega

theorem goodCounts_postValidate {cfg : PoolConfig} {s s' : Sys} {i : Nat}
    (hg : goodCounts cfg s)
    (h : sysStep cfg (.postValidate i) s = some s') :
    goodCounts cfg s' := by
  obtain ⟨hg1, hg2, hg3⟩ := hg
  simp only [sysStep] at h
  split at h
  · rename_i c d heq
    have hvpos : 0 < cntV s.threads :=
      List.countP_pos.mpr ⟨_, List.get?_mem heq, rfl⟩
    have hact : 0 < s.pool.activeCount := by omega
    simp only [PoolSt.total] at hg1
    by_cases hsd : s.pool.shutdown = true
    · rw [if_pos hsd] at h
      injection h with h
      subst h
      have hv := cntV_set (.done (.error poolShutdownError)) heq
      have hc := cntC_set (.done (.error poolShutdownError)) heq
      simp [isValidating, isCreating] at hv hc
      simp only [goodCounts, PoolSt.total, flooredDec_of_pos hact]
      refine ⟨?_, ?_, ?_⟩ <;> omega
    · rw [if_neg hsd] at h
      by_cases hval : (!cfg.validateOnAcquire || validateConnection c) = true
      · rw [if_neg (by simp [hval])] at h
        injection h with h
        subst h
        have hv := cntV_set (.done (.ok c)) heq
        have hc := cntC_set (.done (.ok c)) heq
        simp [isValidating, isCreating] at hv hc
        simp only [goodCounts, PoolSt.total, List.length_append,
          List.length_cons, List.length_nil]
        refine ⟨?_, ?_, ?_⟩ <;> omega
      · rw [if_pos (by simp_all)] at h
        rcases loopBody_cases cfg d
            { s.pool with activeCount := flooredDec s.pool.activeCount } with
          ⟨c2, hl, he, hlen⟩ | ⟨hnil, hlt, he⟩ | ⟨hnil, hlt, he⟩ <;>
          simp only [he, Option.some.injEq] at h <;> subst h
        · have hv := cntV_set (.validating c2 d) heq
          have hc := cntC_set (.validating c2 d) heq
          simp [isValidating, isCreating] at hv hc
          simp only [flooredDec_of_pos hact] at hlen
          simp only [goodCounts, PoolSt.total, flooredDec_of_pos hact]
          refine ⟨?_, ?_, ?_⟩ <;> omega
        · have hv := cntV_set (.creating d) heq
          have hc := cntC_set (.creating d) heq
          simp [isValidating, isCreating] at hv hc
          simp only [PoolSt.total, flooredDec_of_pos hact] at hlt
          simp only [goodCounts, PoolSt.total, flooredDec_of_pos hact]
          refine ⟨?_, ?_, ?_⟩ <;> omega
        · have hv := cntV_set (.waiting d) heq
          have hc := cntC_set (.waiting d) heq
          simp [isValidating, isCreating] at hv hc
          simp only [goodCounts, PoolSt.total, flooredDec_of_pos hact]
          refine ⟨?_, ?_, ?_⟩ <;> omega
  · exact absurd h (by simp)

theorem goodCounts_postCreate {cfg : PoolConfig} {s s' : Sys} {i : Nat}
    {res : Except DbError Conn}
    (hg : goodCounts cfg s)
    (h : sysStep cfg (.postCreate i res) s = some s') :
    goodCounts cfg s' := by
  obtain ⟨hg1, hg2, hg3⟩ := hg
  cases res with
  | ok c =>
      simp only [sysStep] at h
      split at h
      · rename_i d heq
        have hcpos : 0 < cntC s.threads :=
          List.countP_pos.mpr ⟨_, List.get?_mem heq, rfl⟩
        have hpend : 0 < s.pool.pendingCreates := by omega
        injection h with h
        subst h
        have hv := cntV_set (.done (.ok c)) heq
        have hc := cntC_set (.done (.ok c)) heq
        simp [isValidating, isCreating] at hv hc
        simp only [PoolSt.total] at hg1
        simp only [goodCounts, PoolSt.total, flooredDec_of_pos hpend,
          List.length_append, List.length_cons, List.length_nil]
        refine ⟨?_, ?_, ?_⟩ <;> omega
      · exact absurd h (by simp)
  | error e =>
      simp only [sysStep] at h
      split at h
      · rename_i d heq
        have hcpos : 0 < cntC s.threads :=
          List.countP_pos.mpr ⟨_, List.get?_mem heq, rfl⟩
        have hpend : 0 < s.pool.pendingCreates := by omega
        injection h with h
        subst h
        have hv := cntV_set (.done (.error e)) heq
        have hc := cntC_set (.done (.error e)) heq
        simp [isValidating, isCreating] at hv hc
        simp only [PoolSt.total] at hg1
        simp only [goodCounts, PoolSt.total, flooredDec_of_pos hpend]
        refine ⟨?_, ?_, ?_⟩ <;> omega
      · exact absurd h (by simp)

theorem goodCounts_wake {cfg : PoolConfig} {s s' : Sys} {i now : Nat}
    (hg : goodCounts cfg s)
    (h : sysStep cfg (.wake i now) s = some s') :
    goodCounts cfg s' := by
  obtain ⟨hg1, hg2, hg3⟩ := hg
  simp only [sysStep] at h
  split at h
  · rename_i d heq
    simp only [PoolSt.total] at hg1
    by_cases ht : d ≤ now
    · rw [if_pos ht] at h
      injection h with h
      subst h
      have hv := cntV_set (.done (.error acquireTimeoutError)) heq
      have hc := cntC_set (.done (.error acquireTimeoutError)) heq
      simp [isValidating, isCreating] at hv hc
      simp only [goodCounts, PoolSt.total]
      refine ⟨?_, ?_, ?_⟩ <;> omega
    · rw [if_neg ht] at h
      by_cases hsd : s.pool.shutdown = true
      · rw [if_pos hsd] at h
        injection h with h
        subst h
        have hv := cntV_set (.done (.error poolShutdownError)) heq
        have hc := cntC_set (.done (.error poolShutdownError)) heq
        simp [isValidating, isCreating] at hv hc
        simp only [goodCounts, PoolSt.total]
        refine ⟨?_, ?_, ?_⟩ <;> omega
      · rw [if_neg hsd] at h
        rcases loopBody_cases cfg d s.pool with
          ⟨c2, hl, he, hlen⟩ | ⟨hnil, hlt, he⟩ | ⟨hnil, hlt, he⟩ <;>
          simp only [he, Option.some.injEq] at h <;> subst h
        · have hv := cntV_set (.validating c2 d) heq
          have hc := cntC_set (.validating c2 d) heq
          simp [isValidating, isCreating] at hv hc
          simp only [goodCounts, PoolSt.total]
          refine ⟨?_, ?_, ?_⟩ <;> omega
        · have hv := cntV_set (.creating d) heq
          have hc := cntC_set (.creating d) heq
          simp [isValidating, isCreating] at hv hc
          simp only [PoolSt.total] at hlt
          simp only [goodCounts, PoolSt.total]
          refine ⟨?_, ?_, ?_⟩ <;> omega
        · have hv := cntV_set (.waiting d) heq
          have hc := cntC_set (.waiting d) heq
          simp [isValidating, isCreating] at hv hc
          simp only [goodCounts, PoolSt.total]
          refine ⟨?_, ?_, ?_⟩ <;> omega
  · exact absurd h (by simp)

theorem goodCounts_step {cfg : PoolConfig} {a : Act} {s s' : Sys}
    (hg : goodCounts cfg s) (h : sysStep cfg a s = some s') :
    goodCounts cfg s' := by
  cases a with
  | startAcquire now tmo => exact goodCounts_start hg h
  | postValidate i => exact goodCounts_postValidate hg h
  | postCreate i res => exact goodCounts_postCreate hg h
  | wake i now => exact goodCounts_wake hg h
  | releaseLease i => exact goodCounts_release hg h
  | drain => exact goodCounts_drain hg h
  | shutdownAct => exact goodCounts_shutdown hg h

theorem goodCounts_run {cfg : PoolConfig} {acts : List Act} {s s' : Sys}
    (hg : goodCounts cfg s) (h : runSys cfg acts s = some s') :
    goodCounts cfg s' := by
  induction acts generalizing s with
  | nil =>
      simp only [runSys] at h
      injection h with h
      subst h
      exact hg
  | cons a acts ih =>
      simp only [runSys] at h
      cases hstep : sysStep cfg a s with
      | none => rw [hstep] at h; exact absurd h (by simp)
      | some s1 =>
          rw [hstep] at h
          exact ih (goodCounts_step hg hstep) h

theorem warmUp_length_le (create : Nat → Except DbError Conn) (n : Nat) :
    (warmUp create n).length ≤ n := by
  induction n with
  | zero => simp [warmUp]
  | succ n ih =>
      simp only [warmUp, List.length_append]
      cases create n <;> simp <;> omega

theorem goodCounts_init {cfg : PoolConfig} {create : Nat → Except DbError Conn}
    (hms : cfg.minSize ≤ cfg.maxSize) :
    goodCounts cfg (initSys cfg create) := by
  refine ⟨?_, by simp [initSys, mkPool, cntV], by simp [initSys, mkPool, cntC]⟩
  have := warmUp_length_le create cfg.minSize
  simp only [initSys, mkPool, PoolSt.total]
  omega

theorem releaseLocked_shutdown (p : PoolSt) (c : Conn) :
    (releaseLocked p c).shutdown = p.shutdown := by
  simp only [releaseLocked]
  split <;> rfl

theorem loopBody_shutdown (cfg : PoolConfig) (d : Nat) (p : PoolSt) :
    (loopBody cfg d p).1.shutdown = p.shutdown := by
  rcases loopBody_cases cfg d p with ⟨c, _, he, _⟩ | ⟨_, _, he⟩ | ⟨_, _, he⟩ <;>
    rw [he]

theorem sysStep_shutdown_mono {cfg : PoolConfig} {a : Act} {s s' : Sys}
    (h : sysStep cfg a s = some s') (hsd : s.pool.shutdown = true) :
    s'.pool.shutdown = true := by
  cases a with
  | startAcquire now tmo =>
      simp only [sysStep, if_pos hsd] at h
      injection h with h
      subst h
      exact hsd
  | postValidate i =>
      simp only [sysStep] at h
      split at h
      · rw [if_pos hsd] at h
        injection h with h
        subst h
        exact hsd
      · exact absurd h (by simp)
  | postCreate i res =>
      cases res <;> simp only [sysStep] at h <;> split at h <;>
        first
        | (injection h with h; subst h; exact hsd)
        | exact absurd h (by simp)
  | wake i now =>
      simp only [sysStep] at h
      split at h
      · split at h
        · injection h with h
          subst h
          exact hsd
        · first
            | (rw [if_pos hsd] at h; injection h with h; subst h; exact hsd)
            | (injection h with h; subst h; exact hsd)
      · exact absurd h (by simp)
  | releaseLease i =>
      simp only [sysStep] at h
      split at h
      · injection h with h
        subst h
        exact (releaseLocked_shutdown s.pool _).trans hsd
      · exact absurd h (by simp)
  | drain =>
      simp only [sysStep] at h
      injection h with h
      subst h
      exact hsd
  | shutdownAct =>
      simp only [sysStep] at h
      injection h with h
      subst h
      rfl

/-- C1 (amended): under every interleaving of acquire, release, drain,
shutdown and construction, every reachable system state satisfies invariant
I1, `activeCount + idle.size() + pendingCreates ≤ maxSize` — provided the
configuration has `minSize ≤ maxSize`.  (The original claim's "for every
PoolConfig including one where minSize exceeds maxSize" is false: the
constructor pre-creates `minSize` connections without capping at `maxSize`,
see the counterexample.) -/
theorem pool_capacity_invariant (cfg : PoolConfig)
    (create : Nat → Except DbError Conn) (s : Sys)
    (hms : cfg.minSize ≤ cfg.maxSize) (hr : Reachable cfg create s) :
    s.pool.activeCount + s.pool.idle.length + s.pool.pendingCreates
      ≤ cfg.maxSize := by
  obtain ⟨acts, hrun⟩ := hr
  have hg := goodCounts_run (goodCounts_init hms) hrun
  simpa [PoolSt.total] using hg.1

/-- C1 witness: the amended invariant instantiated at a concrete
configuration (maxSize 2, minSize 1) and the freshly constructed state. -/
theorem pool_capacity_invariant_witness :
    (initSys ⟨"cs", 2, 1, 100, 100, true⟩
        (fun n => .ok ⟨n, true, true⟩)).pool.activeCount
      + (initSys ⟨"cs", 2, 1, 100, 100, true⟩
          (fun n => .ok ⟨n, true, true⟩)).pool.idle.length
      + (initSys ⟨"cs", 2, 1, 100, 100, true⟩
          (fun n => .ok ⟨n, true, true⟩)).pool.pendingCreates
      ≤ (⟨"cs", 2, 1, 100, 100, true⟩ : PoolConfig).maxSize :=
  pool_capacity_invariant ⟨"cs", 2, 1, 100, 100, true⟩
    (fun n => .ok ⟨n, true, true⟩) _ (by decide) ⟨[], rfl⟩

/-- C1 counterexample: with `maxSize = 1`, `minSize = 2` and a factory that
always succeeds, the freshly constructed pool — a reachable state — already
has `activeCount + idle.size() + pendingCreates = 2 > maxSize = 1`:
invariant I1 fails for a PoolConfig whose minSize exceeds maxSize. -/
theorem pool_capacity_counterexample :
    Reachable ⟨"cs", 1, 2, 100, 100, true⟩ (fun n => .ok ⟨n, true, true⟩)
        (initSys ⟨"cs", 1, 2, 100, 100, true⟩ (fun n => .ok ⟨n, true, true⟩)) ∧
    ¬ ((initSys ⟨"cs", 1, 2, 100, 100, true⟩
          (fun n => .ok ⟨n, true, true⟩)).pool.activeCount
        + (initSys ⟨"cs", 1, 2, 100, 100, true⟩
            (fun n => .ok ⟨n, true, true⟩)).pool.idle.length
        + (initSys ⟨"cs", 1, 2, 100, 100, true⟩
            (fun n => .ok ⟨n, true, true⟩)).pool.pendingCreates
        ≤ (⟨"cs", 1, 2, 100, 100, true⟩ : PoolConfig).maxSize) :=
  ⟨⟨[], rfl⟩, by decide⟩

/-- C2 (amended): `acquire` fails with `PoolShutdown` when the pool is
already shut down at entry, when shutdown is observed at the re-lock after
the unlocked validation window (rolling back the `activeCount` reservation),
and when shutdown is observed after a wake whose deadline has not passed;
moreover `shutdown` is monotone (once true it stays true under every step).
The unamended claim — that shutdown at *any* point during the call, the
resource-creation window included, yields `PoolShutdown` and never a lease —
is refuted by the counterexample: the creation path does not re-check
`shutdown` after `createConnection` returns. -/
theorem acquire_shutdown_paths (cfg : PoolConfig) (s s2 : Sys) (i : Nat)
    (c : Conn) (d now tmo : Nat) (a : Act) :
    (s.pool.shutdown = true →
      sysStep cfg (.startAcquire now tmo) s =
        some { s with
               threads := s.threads ++ [.done (.error poolShutdownError)] }) ∧
    (s.threads.get? i = some (.validating c d) → s.pool.shutdown = true →
      sysStep cfg (.postValidate i) s =
        some { s with
               pool := { s.pool with
                         activeCount := flooredDec s.pool.activeCount },
               threads := s.threads.set i (.done (.error poolShutdownError)) }) ∧
    (s.threads.get? i = some (.waiting d) → s.pool.shutdown = true → now < d →
      sysStep cfg (.wake i now) s =
        some { s with
               threads := s.threads.set i (.done (.error poolShutdownError)) }) ∧
    (sysStep cfg a s = some s2 → s.pool.shutdown = true →
      s2.pool.shutdown = true) := by
  refine ⟨?_, ?_, ?_, fun h hsd => sysStep_shutdown_mono h hsd⟩
  · intro hsd
    simp only [sysStep]
    rw [if_pos hsd]
  · intro hpc hsd
    simp only [sysStep, hpc]
    rw [if_pos hsd]
  · intro hpc hsd hlt
    simp only [sysStep, hpc]
    rw [if_neg (show ¬ d ≤ now by omega), if_pos hsd]

/-- C2 witness: a concrete pool already shut down, with one thread in the
validation window; the step rolls the reservation back and fails with
`PoolShutdown`. -/
theorem acquire_shutdown_paths_witness :
    sysStep ⟨"cs", 1, 0, 100, 100, true⟩ (.postValidate 0)
        { pool := { idle := [], activeCount := 1, pendingCreates := 0,
                    shutdown := true },
          threads := [.validating ⟨3, true, true⟩ 50], leases := [], log := [] } =
      some { pool := { idle := [], activeCount := 0, pendingCreates := 0,
                       shutdown := true },
             threads := [.done (.error poolShutdownError)], leases := [],
             log := [] } :=
  (acquire_shutdown_paths ⟨"cs", 1, 0, 100, 100, true⟩
      { pool := { idle := [], activeCount := 1, pendingCreates := 0,
                  shutdown := true },
        threads := [.validating ⟨3, true, true⟩ 50], leases := [], log := [] }
      { pool := { idle := [], activeCount := 1, pendingCreates := 0,
                  shutdown := true },
        threads := [.validating ⟨3, true, true⟩ 50], leases := [], log := [] }
      0 ⟨3, true, true⟩ 50 0 0 .drain).2.1 rfl rfl

/-- C2 counterexample: the pool is shut down while a thread is inside the
unlocked `createConnection` window; on re-lock the creation path does not
re-check `shutdown`, so the call still returns a lease (`done (.ok …)`)
although the pool became shut down during the call. -/
theorem acquire_shutdown_counterexample :
    runSys ⟨"cs", 1, 0, 100, 100, true⟩
        [.startAcquire 0 50, .shutdownAct, .postCreate 0 (.ok ⟨7, true, true⟩)]
        (initSys ⟨"cs", 1, 0, 100, 100, true⟩
          (fun _ => .error ⟨"connect: refused", "", 0⟩)) =
      some { pool := { idle := [], activeCount := 1, pendingCreates := 0,
                       shutdown := true },
             threads := [.done (.ok ⟨7, true, true⟩)],
             leases := [⟨7, true, true⟩],
             log := [.notifyAll] } := by
  rfl


theorem deadlineOf_loopBody (cfg : PoolConfig) (d : Nat) (p : PoolSt) :
    deadlineOf (loopBody cfg d p).2 = some d := by
  rcases loopBody_cases cfg d p with ⟨c, _, he, _⟩ | ⟨_, _, he⟩ | ⟨_, _, he⟩ <;>
    simp [he, deadlineOf]

theorem get?_set_cases {α : Type} {ts : List α} {i j : Nat} {x pc' : α}
    (hj : j < ts.length)
    (h : (ts.set j x).get? i = some pc') :
    (i = j ∧ pc' = x) ∨ (i ≠ j ∧ ts.get? i = some pc') := by
  by_cases hij : i = j
  · subst hij
    rw [List.get?_set_eq_of_lt _ hj] at h
    exact Or.inl ⟨rfl, (Option.some.inj h).symm⟩
  · refine Or.inr ⟨hij, ?_⟩
    rw [List.get?_set_ne _ _ (fun hh => hij hh.symm)] at h
    exact h

theorem deadline_stable {cfg : PoolConfig} {a : Act} {s s' : Sys} {i : Nat}
    {pc pc' : AcqPC}
    (h : sysStep cfg a s = some s')
    (hpc : s.threads.get? i = some pc)
    (hpc' : s'.threads.get? i = some pc') :
    deadlineOf pc' = deadlineOf pc ∨ deadlineOf pc' = none := by
  have hilt : i < s.threads.length := (List.get?_eq_some.mp hpc).1
  cases a with
  | startAcquire now tmo =>
      simp only [sysStep] at h
      by_cases hsd : s.pool.shutdown = true
      · rw [if_pos hsd] at h
        injection h with h
        subst h
        rw [List.get?_append hilt, hpc] at hpc'
        injection hpc' with hpc'
        subst hpc'
        exact Or.inl rfl
      · rw [if_neg hsd] at h
        simp only [Option.some.injEq] at h
        subst h
        rw [List.get?_append hilt, hpc] at hpc'
        injection hpc' with hpc'
        subst hpc'
        exact Or.inl rfl
  | postValidate j =>
      simp only [sysStep] at h
      split at h
      · rename_i c d heq
        have hjlt : j < s.threads.length := (List.get?_eq_some.mp heq).1
        by_cases hsd : s.pool.shutdown = true
        · rw [if_pos hsd] at h
          injection h with h
          subst h
          rcases get?_set_cases hjlt hpc' with ⟨rfl, rfl⟩ | ⟨hij, hpc2⟩
          · exact Or.inr rfl
          · rw [hpc] at hpc2
            injection hpc2 with hpc2
            subst hpc2
            exact Or.inl rfl
        · rw [if_neg hsd] at h
          by_cases hval : (!cfg.validateOnAcquire || validateConnection c) = true
          · rw [if_neg (by simp [hval])] at h
            injection h with h
            subst h
            rcases get?_set_cases hjlt hpc' with ⟨rfl, rfl⟩ | ⟨hij, hpc2⟩
            · exact Or.inr rfl
            · rw [hpc] at hpc2
              injection hpc2 with hpc2
              subst hpc2
              exact Or.inl rfl
          · rw [if_pos (by simp_all)] at h
            simp only [Option.some.injEq] at h
            subst h
            rcases get?_set_cases hjlt hpc' with ⟨rfl, rfl⟩ | ⟨hij, hpc2⟩
            · rw [heq] at hpc
              injection hpc with hpc
              subst hpc
              exact Or.inl (by rw [deadlineOf_loopBody]; rfl)
            · rw [hpc] at hpc2
              injection hpc2 with hpc2
              subst hpc2
              exact Or.inl rfl
      · exact absurd h (by simp)
  | postCreate j res =>
      cases res with
      | ok c =>
          simp only [sysStep] at h
          split at h
          · rename_i d heq
            have hjlt : j < s.threads.length := (List.get?_eq_some.mp heq).1
            injection h with h
            subst h
            rcases get?_set_cases hjlt hpc' with ⟨rfl, rfl⟩ | ⟨hij, hpc2⟩
            · exact Or.inr rfl
            · rw [hpc] at hpc2
              injection hpc2 with hpc2
              subst hpc2
              exact Or.inl rfl
          · exact absurd h (by simp)
      | error e =>
          simp only [sysStep] at h
          split at h
          · rename_i d heq
            have hjlt : j < s.threads.length := (List.get?_eq_some.mp heq).1
            injection h with h
            subst h
            rcases get?_set_cases hjlt hpc' with ⟨rfl, rfl⟩ | ⟨hij, hpc2⟩
            · exact Or.inr rfl
            · rw [hpc] at hpc2
              injection hpc2 with hpc2
              subst hpc2
              exact Or.inl rfl
          · exact absurd h (by simp)
  | wake j now =>
      simp only [sysStep] at h
      split at h
      · rename_i d heq
        have hjlt : j < s.threads.length := (List.get?_eq_some.mp heq).1
        by_cases ht : d ≤ now
        · rw [if_pos ht] at h
          injection h with h
          subst h
          rcases get?_set_cases hjlt hpc' with ⟨rfl, rfl⟩ | ⟨hij, hpc2⟩
          · exact Or.inr rfl
          · rw [hpc] at hpc2
            injection hpc2 with hpc2
            subst hpc2
            exact Or.inl rfl
        · rw [if_neg ht] at h
          by_cases hsd : s.pool.shutdown = true
          · rw [if_pos hsd] at h
            injection h with h
            subst h
            rcases get?_set_cases hjlt hpc' with ⟨rfl, rfl⟩ | ⟨hij, hpc2⟩
            · exact Or.inr rfl
            · rw [hpc] at hpc2
              injection hpc2 with hpc2
              subst hpc2
              exact Or.inl rfl
          · rw [if_neg hsd] at h
            simp only [Option.some.injEq] at h
            subst h
            rcases get?_set_cases hjlt hpc' with ⟨rfl, rfl⟩ | ⟨hij, hpc2⟩
            · rw [heq] at hpc
              injection hpc with hpc
              subst hpc
              exact Or.inl (by rw [deadlineOf_loopBody]; rfl)
            · rw [hpc] at hpc2
              injection hpc2 with hpc2
              subst hpc2
              exact Or.inl rfl
      · exact absurd h (by simp)
  | releaseLease j =>
      simp only [sysStep] at h
      split at h
      · injection h with h
        subst h
        rw [hpc] at hpc'
        injection hpc' with hpc'
        subst hpc'
        exact Or.inl rfl
      · exact absurd h (by simp)
  | drain =>
      simp only [sysStep] at h
      injection h with h
      subst h
      rw [hpc] at hpc'
      injection hpc' with hpc'
      subst hpc'
      exact Or.inl rfl
  | shutdownAct =>
      simp only [sysStep] at h
      injection h with h
      subst h
      rw [hpc] at hpc'
      injection hpc' with hpc'
      subst hpc'
      exact Or.inl rfl

theorem connect_head (msg : String) :
    ("connect: " ++ msg).data.head? = some 'c' := by
  rw [String.data_append, List.head?_append]
  rfl

theorem timeout_ne_connectError (msg : String) :
    acquireTimeoutError ≠ connectError msg := by
  intro h
  have hm : acquireTimeoutError.message = (connectError msg).message := by rw [h]
  simp only [acquireTimeoutError, connectError] at hm
  have hd : ("Timeout waiting for connection from pool" : String).data.head?
      = ("connect: " ++ msg).data.head? := by rw [hm]
  rw [connect_head msg] at hd
  exact absurd hd (by decide)

/-- C4: the absolute deadline is computed exactly once at entry of
`acquire(timeout)` (`startAcquire` stores `now + timeout` in the thread's
program counter and no step of the system ever changes a live call's
deadline); every wake from `cv.wait_until` re-checks that same deadline and
deadline expiry produces the `AcquireTimeout` error value, which is distinct
from the `PoolShutdown` error and from every factory (`connect: …`)
creation error. -/
theorem acquire_deadline_and_timeout (cfg : PoolConfig) (a : Act) (s s' : Sys)
    (i : Nat) (pc pc' : AcqPC) (d now tmo : Nat) :
    (sysStep cfg a s = some s' → s.threads.get? i = some pc →
      s'.threads.get? i = some pc' →
      deadlineOf pc' = deadlineOf pc ∨ deadlineOf pc' = none) ∧
    (s.pool.shutdown = false →
      sysStep cfg (.startAcquire now tmo) s = some s' →
      s'.threads.get? s.threads.length
          = some ((loopBody cfg (now + tmo) s.pool).2) ∧
      deadlineOf ((loopBody cfg (now + tmo) s.pool).2) = some (now + tmo)) ∧
    (s.threads.get? i = some (.waiting d) → d ≤ now →
      sysStep cfg (.wake i now) s =
        some { s with
               threads :=
                 s.threads.set i (.done (.error acquireTimeoutError)) }) ∧
    acquireTimeoutError ≠ poolShutdownError ∧
    (∀ msg, acquireTimeoutError ≠ connectError msg) := by
  refine ⟨fun h hpc hpc' => deadline_stable h hpc hpc', ?_, ?_, by decide,
    timeout_ne_connectError⟩
  · intro hsd h
    simp only [sysStep] at h
    rw [if_neg (by simp [hsd])] at h
    simp only [Option.some.injEq] at h
    subst h
    exact ⟨List.get?_concat_length _ _, deadlineOf_loopBody _ _ _⟩
  · intro hpc ht
    simp only [sysStep, hpc]
    rw [if_pos ht]

/-- C4 witness: a thread whose wait deadline (50) has passed at wake time
(60) finishes with the `AcquireTimeout` error. -/
theorem acquire_deadline_and_timeout_witness :
    sysStep ⟨"cs", 1, 0, 100, 100, true⟩ (.wake 0 60)
        { pool := { idle := [], activeCount := 1, pendingCreates := 0,
                    shutdown := false },
          threads := [.waiting 50], leases := [], log := [] } =
      some { pool := { idle := [], activeCount := 1, pendingCreates := 0,
                       shutdown := false },
             threads := [.done (.error acquireTimeoutError)], leases := [],
             log := [] } :=
  (acquire_deadline_and_timeout ⟨"cs", 1, 0, 100, 100, true⟩ .drain
      { pool := { idle := [], activeCount := 1, pendingCreates := 0,
                  shutdown := false },
        threads := [.waiting 50], leases := [], log := [] }
      { pool := { idle := [], activeCount := 1, pendingCreates := 0,
                  shutdown := false },
        threads := [.waiting 50], leases := [], log := [] }
      0 (.waiting 50) (.waiting 50) 50 60 0).2.2.1 rfl (by decide)

/-- C5: when the factory call of the creation path fails, the re-locked
section releases the `pendingCreates` reservation (defensively floored),
finishes the call immediately — no internal retry — propagating the
factory's error verbatim, and performs exactly one `notify_one`. -/
theorem create_failure_propagates (cfg : PoolConfig) (s : Sys) (i d : Nat)
    (e : DbError) (hpc : s.threads.get? i = some (.creating d)) :
    sysStep cfg (.postCreate i (.error e)) s =
      some { s with
             pool := { s.pool with
                       pendingCreates := flooredDec s.pool.pendingCreates },
             threads := s.threads.set i (.done (.error e)),
             log := s.log ++ [.notifyOne] } := by
  simp only [sysStep, hpc]

/-- C5 witness: a concrete failing creation; the reservation drops from 1 to
0, the error is returned verbatim, one waiter is notified. -/
theorem create_failure_propagates_witness :
    sysStep ⟨"cs", 1, 0, 100, 100, true⟩
        (.postCreate 0 (.error ⟨"connect: refused", "", 0⟩))
        { pool := { idle := [], activeCount := 0, pendingCreates := 1,
                    shutdown := false },
          threads := [.creating 50], leases := [], log := [] } =
      some { pool := { idle := [], activeCount := 0, pendingCreates := 0,
                       shutdown := false },
             threads := [.done (.error ⟨"connect: refused", "", 0⟩)],
             leases := [], log := [.notifyOne] } :=
  create_failure_propagates ⟨"cs", 1, 0, 100, 100, true⟩
    { pool := { idle := [], activeCount := 0, pendingCreates := 1,
                shutdown := false },
      threads := [.creating 50], leases := [], log := [] }
    0 50 ⟨"connect: refused", "", 0⟩ rfl

/-- C7: the idle collection is served LIFO.  `release` pushes the returned
connection onto the back of `idle` and the very next acquire that draws from
`idle` pops that same connection; in general, the loop body always hands out
the most recently pushed element of `idle` (the vector's back). -/
theorem idle_lifo_order (cfg : PoolConfig) (s : Sys) (i : Nat) (c : Conn)
    (now tmo : Nat) (p : PoolSt) (d : Nat) (c2 : Conn) :
    (s.leases.get? i = some c → s.pool.shutdown = false → c.connected = true →
      ∃ s', sysStep cfg (.releaseLease i) s = some s' ∧
        s'.pool.idle = s.pool.idle ++ [c] ∧
        s'.pool.shutdown = false ∧
        (∀ s'', sysStep cfg (.startAcquire now tmo) s' = some s'' →
          s''.threads.get? s'.threads.length
              = some (.validating c (now + tmo)) ∧
          s''.pool.idle = s.pool.idle)) ∧
    (p.idle.getLast? = some c2 →
      (loopBody cfg d p).2 = .validating c2 d ∧
      (loopBody cfg d p).1.idle = p.idle.dropLast) := by
  constructor
  · intro hl hsd hc
    have hrl : releaseLocked s.pool c =
        { s.pool with activeCount := flooredDec s.pool.activeCount,
                      idle := s.pool.idle ++ [c] } := by
      simp [releaseLocked, hsd, hc]
    refine ⟨{ s with pool := releaseLocked s.pool c,
                     leases := s.leases.eraseIdx i,
                     log := s.log ++ [.notifyOne] }, ?_, ?_, ?_, ?_⟩
    · simp only [sysStep, hl]
    · rw [hrl]
    · rw [hrl]
      exact hsd
    · intro s'' h
      simp only [sysStep] at h
      rw [if_neg (by rw [hrl]; simp [hsd])] at h
      have hlb : loopBody cfg (now + tmo) (releaseLocked s.pool c) =
          ({ releaseLocked s.pool c with
              idle := (releaseLocked s.pool c).idle.dropLast,
              activeCount := (releaseLocked s.pool c).activeCount + 1 },
           .validating c (now + tmo)) := by
        simp [loopBody, hrl]
      rw [hlb] at h
      simp only [Option.some.injEq] at h
      subst h
      refine ⟨List.get?_concat_length _ _, ?_⟩
      rw [hrl]
      simp
  · intro hl
    rcases loopBody_cases cfg d p with ⟨c3, hl3, he, _⟩ | ⟨hnil, _, _⟩ |
        ⟨hnil, _, _⟩
    · rw [hl3] at hl
      injection hl with hl
      subst hl
      rw [he]
      exact ⟨rfl, rfl⟩
    · rw [hnil] at hl
      exact absurd hl (by simp)
    · rw [hnil] at hl
      exact absurd hl (by simp)

/-- C7 witness: release connection 5 into a pool whose idle list already
holds connection 4; the next acquire is handed connection 5, not 4. -/
theorem idle_lifo_order_witness :
    ∃ s', sysStep ⟨"cs", 3, 0, 100, 100, true⟩ (.releaseLease 0)
        { pool := { idle := [⟨4, true, true⟩], activeCount := 1,
                    pendingCreates := 0, shutdown := false },
          threads := [], leases := [⟨5, true, true⟩], log := [] } = some s' ∧
      s'.pool.idle = [⟨4, true, true⟩] ++ [⟨5, true, true⟩] ∧
      s'.pool.shutdown = false ∧
      (∀ s'', sysStep ⟨"cs", 3, 0, 100, 100, true⟩ (.startAcquire 0 100) s'
          = some s'' →
        s''.threads.get? s'.threads.length
            = some (.validating ⟨5, true, true⟩ (0 + 100)) ∧
        s''.pool.idle = [⟨4, true, true⟩]) :=
  (idle_lifo_order ⟨"cs", 3, 0, 100, 100, true⟩
      { pool := { idle := [⟨4, true, true⟩], activeCount := 1,
                  pendingCreates := 0, shutdown := false },
        threads := [], leases := [⟨5, true, true⟩], log := [] }
      0 ⟨5, true, true⟩ 0 100
      { idle := [], activeCount := 0, pendingCreates := 0, shutdown := false }
      0 ⟨5, true, true⟩).1 rfl rfl rfl

/-- C10: when `validateOnAcquire` is false the idle path performs no liveness
check whatsoever — the short-circuit `!config_.validateOnAcquire || …`
(line 105) never consults `validateConnection` nor `isConnected` — so even a
disconnected connection sitting in idle is handed to the caller as a
successful lease. -/
theorem no_probe_when_validation_disabled (cfg : PoolConfig) (s : Sys)
    (c : Conn) (now tmo : Nat)
    (hv : cfg.validateOnAcquire = false)
    (hsd : s.pool.shutdown = false)
    (hc : c.connected = false)
    (hidle : s.pool.idle.getLast? = some c) :
    ∃ s', sysStep cfg (.startAcquire now tmo) s = some s' ∧
      s'.threads.get? s.threads.length = some (.validating c (now + tmo)) ∧
      (∀ s'', sysStep cfg (.postValidate s.threads.length) s' = some s'' →
        s''.threads.get? s.threads.length = some (.done (.ok c)) ∧
        s''.leases = s.leases ++ [c] ∧
        s''.pool = s'.pool) := by
  have he : loopBody cfg (now + tmo) s.pool =
      ({ s.pool with idle := s.pool.idle.dropLast,
                     activeCount := s.pool.activeCount + 1 },
       .validating c (now + tmo)) := by
    simp [loopBody, hidle]
  refine ⟨{ s with
            pool := { s.pool with idle := s.pool.idle.dropLast,
                                  activeCount := s.pool.activeCount + 1 },
            threads := s.threads ++ [.validating c (now + tmo)] }, ?_, ?_, ?_⟩
  · simp only [sysStep]
    rw [if_neg (by simp [hsd]), he]
  · exact List.get?_concat_length _ _
  · intro s'' h
    simp only [sysStep, List.get?_concat_length] at h
    rw [if_neg (by simp [hsd])] at h
    rw [if_neg (by simp [hv])] at h
    injection h with h
    subst h
    refine ⟨?_, rfl, rfl⟩
    exact List.get?_set_eq_of_lt _ (by simp)

/-- C10 witness: a disconnected connection (id 9, `connected = false`) in
idle is returned as a successful lease when `validateOnAcquire = false`. -/
theorem no_probe_when_validation_disabled_witness :
    ∃ s', sysStep ⟨"cs", 2, 0, 100, 100, false⟩ (.startAcquire 0 100)
        { pool := { idle := [⟨9, false, false⟩], activeCount := 0,
                    pendingCreates := 0, shutdown := false },
          threads := [], leases := [], log := [] } = some s' ∧
      s'.threads.get? 0 = some (.validating ⟨9, false, false⟩ (0 + 100)) ∧
      (∀ s'', sysStep ⟨"cs", 2, 0, 100, 100, false⟩ (.postValidate 0) s'
          = some s'' →
        s''.threads.get? 0 = some (.done (.ok ⟨9, false, false⟩)) ∧
        s''.leases = [] ++ [(⟨9, false, false⟩ : Conn)] ∧
        s''.pool = s'.pool) :=
  no_probe_when_validation_disabled ⟨"cs", 2, 0, 100, 100, false⟩
    { pool := { idle := [⟨9, false, false⟩], activeCount := 0,
                pendingCreates := 0, shutdown := false },
      threads := [], leases := [], log := [] }
    ⟨9, false, false⟩ 0 100 rfl rfl rfl rfl




theorem ConnFree_loopBody {c : Conn} {p : PoolSt} (cfg : PoolConfig) (d : Nat)
    (hidle : c ∉ p.idle) :
    c ∉ (loopBody cfg d p).1.idle ∧ pcHolds c (loopBody cfg d p).2 = false := by
  rcases loopBody_cases cfg d p with ⟨c2, hl, he, _⟩ | ⟨_, _, he⟩ | ⟨_, _, he⟩ <;>
    rw [he]
  · have hc2 : c2 ∈ p.idle := by
      rcases List.getLast?_eq_some_iff.mp hl with ⟨ys, hy⟩
      rw [hy]
      exact List.mem_append_right _ (by simp)
    constructor
    · exact fun hm => hidle (List.mem_of_mem_dropLast hm)
    · simp only [pcHolds, beq_eq_false_iff_ne]
      exact fun hcc => hidle (hcc ▸ hc2)
  · exact ⟨hidle, rfl⟩
  · exact ⟨hidle, rfl⟩

theorem releaseLocked_idle_mem {p : PoolSt} {c c2 : Conn}
    (hidle : c ∉ p.idle) (hne : c2 ≠ c) :
    c ∉ (releaseLocked p c2).idle := by
  simp only [releaseLocked]
  split
  · intro hm
    rcases List.mem_append.mp hm with hm | hm
    · exact hidle hm
    · simp at hm
      exact hne hm.symm
  · exact hidle

theorem ConnFree_step {cfg : PoolConfig} {a : Act} {s s' : Sys} {c : Conn}
    (hf : ConnFree c s) (h : sysStep cfg a s = some s')
    (hni : injects c a = false) : ConnFree c s' := by
  obtain ⟨hidle, hlease, hth⟩ := hf
  cases a with
  | startAcquire now tmo =>
      simp only [sysStep] at h
      by_cases hsd : s.pool.shutdown = true
      · rw [if_pos hsd] at h
        injection h with h
        subst h
        refine ⟨hidle, hlease, fun pc hm => ?_⟩
        rcases List.mem_append.mp hm with hm | hm
        · exact hth pc hm
        · simp at hm
          subst hm
          rfl
      · rw [if_neg hsd] at h
        simp only [Option.some.injEq] at h
        subst h
        obtain ⟨hi2, hp2⟩ := ConnFree_loopBody cfg (now + tmo) hidle
        refine ⟨hi2, hlease, fun pc hm => ?_⟩
        rcases List.mem_append.mp hm with hm | hm
        · exact hth pc hm
        · simp at hm
          subst hm
          exact hp2
  | postValidate j =>
      simp only [sysStep] at h
      split at h
      · rename_i c2 d heq
        have hc2 : pcHolds c (.validating c2 d) = false :=
          hth _ (List.get?_mem heq)
        have hne : c2 ≠ c := by
          simpa [pcHolds, beq_eq_false_iff_ne] using hc2
        by_cases hsd : s.pool.shutdown = true
        · rw [if_pos hsd] at h
          injection h with h
          subst h
          refine ⟨hidle, hlease, fun pc hm => ?_⟩
          rcases List.mem_or_eq_of_mem_set hm with hm | rfl
          · exact hth pc hm
          · rfl
        · rw [if_neg hsd] at h
          by_cases hval : (!cfg.validateOnAcquire || validateConnection c2) = true
          · rw [if_neg (by simp [hval])] at h
            injection h with h
            subst h
            refine ⟨hidle, fun hm => ?_, fun pc hm => ?_⟩
            · rcases List.mem_append.mp hm with hm | hm
              · exact hlease hm
              · simp at hm
                exact hne hm.symm
            · rcases List.mem_or_eq_of_mem_set hm with hm | rfl
              · exact hth pc hm
              · simp only [pcHolds, beq_eq_false_iff_ne]
                exact hne
          · rw [if_pos (by simp_all)] at h
            simp only [Option.some.injEq] at h
            subst h
            obtain ⟨hi2, hp2⟩ :=
              ConnFree_loopBody (p :=
                { s.pool with activeCount := flooredDec s.pool.activeCount })
                cfg d hidle
            refine ⟨hi2, hlease, fun pc hm => ?_⟩
            rcases List.mem_or_eq_of_mem_set hm with hm | rfl
            · exact hth pc hm
            · exact hp2
      · exact absurd h (by simp)
  | postCreate j res =>
      cases res with
      | ok c2 =>
          have hne : c2 ≠ c := by
            simpa [injects, beq_eq_false_iff_ne] using hni
          simp only [sysStep] at h
          split at h
          · rename_i d heq
            injection h with h
            subst h
            refine ⟨hidle, fun hm => ?_, fun pc hm => ?_⟩
            · rcases List.mem_append.mp hm with hm | hm
              · exact hlease hm
              · simp at hm
                exact hne hm.symm
            · rcases List.mem_or_eq_of_mem_set hm with hm | rfl
              · exact hth pc hm
              · simp only [pcHolds, beq_eq_false_iff_ne]
                exact hne
          · exact absurd h (by simp)
      | error e =>
          simp only [sysStep] at h
          split at h
          · rename_i d heq
            injection h with h
            subst h
            refine ⟨hidle, hlease, fun pc hm => ?_⟩
            rcases List.mem_or_eq_of_mem_set hm with hm | rfl
            · exact hth pc hm
            · rfl
          · exact absurd h (by simp)
  | wake j now =>
      simp only [sysStep] at h
      split at h
      · rename_i d heq
        by_cases ht : d ≤ now
        · rw [if_pos ht] at h
          injection h with h
          subst h
          refine ⟨hidle, hlease, fun pc hm => ?_⟩
          rcases List.mem_or_eq_of_mem_set hm with hm | rfl
          · exact hth pc hm
          · rfl
        · rw [if_neg ht] at h
          by_cases hsd : s.pool.shutdown = true
          · rw [if_pos hsd] at h
            injection h with h
            subst h
            refine ⟨hidle, hlease, fun pc hm => ?_⟩
            rcases List.mem_or_eq_of_mem_set hm with hm | rfl
            · exact hth pc hm
            · rfl
          · rw [if_neg hsd] at h
            simp only [Option.some.injEq] at h
            subst h
            obtain ⟨hi2, hp2⟩ := ConnFree_loopBody cfg d hidle
            refine ⟨hi2, hlease, fun pc hm => ?_⟩
            rcases List.mem_or_eq_of_mem_set hm with hm | rfl
            · exact hth pc hm
            · exact hp2
      · exact absurd h (by simp)
  | releaseLease j =>
      simp only [sysStep] at h
      split at h
      · rename_i c2 hl
        have hne : c2 ≠ c := fun hcc => hlease (hcc ▸ List.get?_mem hl)
        injection h with h
        subst h
        exact ⟨releaseLocked_idle_mem hidle hne,
          fun hm => hlease (List.mem_of_mem_eraseIdx hm), hth⟩
      · exact absurd h (by simp)
  | drain =>
      simp only [sysStep] at h
      injection h with h
      subst h
      exact ⟨by simp, hlease, hth⟩
  | shutdownAct =>
      simp only [sysStep] at h
      injection h with h
      subst h
      exact ⟨by simp, hlease, hth⟩

theorem ConnFree_run {cfg : PoolConfig} {acts : List Act} {s s' : Sys}
    {c : Conn}
    (hf : ConnFree c s) (hni : ∀ a ∈ acts, injects c a = false)
    (h : runSys cfg acts s = some s') : ConnFree c s' := by
  induction acts generalizing s with
  | nil =>
      simp only [runSys] at h
      injection h with h
      subst h
      exact hf
  | cons a acts ih =>
      simp only [runSys] at h
      cases hstep : sysStep cfg a s with
      | none => rw [hstep] at h; exact absurd h (by simp)
      | some s1 =>
          rw [hstep] at h
          exact ih (ConnFree_step hf hstep (hni a (by simp)))
            (fun a2 hm => hni a2 (by simp [hm])) h



theorem done_error_inv {x e : DbError}
    (he : AcqPC.done (.error x) = AcqPC.done (.error e)) : e = x := by
  injection he with he
  injection he with he
  exact he.symm

theorem loopBody_snd_ne_done (cfg : PoolConfig) (d : Nat) (p : PoolSt)
    (r : Except DbError Conn) : (loopBody cfg d p).2 ≠ AcqPC.done r := by
  rcases loopBody_cases cfg d p with ⟨c, _, he, _⟩ | ⟨_, _, he⟩ | ⟨_, _, he⟩ <;>
    rw [he] <;> simp

theorem ErrOk_step {cfg : PoolConfig} {a : Act} {s s' : Sys}
    {E : List DbError}
    (hE : ErrOk E s) (h : sysStep cfg a s = some s')
    (hsub : ∀ e ∈ actErrors [a], e ∈ E) :
    ErrOk E s' := by
  cases a with
  | startAcquire now tmo =>
      simp only [sysStep] at h
      by_cases hsd : s.pool.shutdown = true
      · rw [if_pos hsd] at h
        injection h with h
        subst h
        intro pc hm e he
        rcases List.mem_append.mp hm with hm | hm
        · exact hE pc hm e he
        · simp at hm
          subst hm
          exact Or.inl (done_error_inv he)
      · rw [if_neg hsd] at h
        simp only [Option.some.injEq] at h
        subst h
        intro pc hm e he
        rcases List.mem_append.mp hm with hm | hm
        · exact hE pc hm e he
        · simp at hm
          subst hm
          exact absurd he (loopBody_snd_ne_done _ _ _ _)
  | postValidate j =>
      simp only [sysStep] at h
      split at h
      · rename_i c2 d heq
        by_cases hsd : s.pool.shutdown = true
        · rw [if_pos hsd] at h
          injection h with h
          subst h
          intro pc hm e he
          rcases List.mem_or_eq_of_mem_set hm with hm | rfl
          · exact hE pc hm e he
          · exact Or.inl (done_error_inv he)
        · rw [if_neg hsd] at h
          by_cases hval : (!cfg.validateOnAcquire || validateConnection c2) = true
          · rw [if_neg (by simp [hval])] at h
            injection h with h
            subst h
            intro pc hm e he
            rcases List.mem_or_eq_of_mem_set hm with hm | rfl
            · exact hE pc hm e he
            · exact absurd he (by simp)
          · rw [if_pos (by simp_all)] at h
            simp only [Option.some.injEq] at h
            subst h
            intro pc hm e he
            rcases List.mem_or_eq_of_mem_set hm with hm | rfl
            · exact hE pc hm e he
            · exact absurd he (loopBody_snd_ne_done _ _ _ _)
      · exact absurd h (by simp)
  | postCreate j res =>
      cases res with
      | ok c2 =>
          simp only [sysStep] at h
          split at h
          · rename_i d heq
            injection h with h
            subst h
            intro pc hm e he
            rcases List.mem_or_eq_of_mem_set hm with hm | rfl
            · exact hE pc hm e he
            · exact absurd he (by simp)
          · exact absurd h (by simp)
      | error e0 =>
          simp only [sysStep] at h
          split at h
          · rename_i d heq
            injection h with h
            subst h
            intro pc hm e he
            rcases List.mem_or_eq_of_mem_set hm with hm | rfl
            · exact hE pc hm e he
            · refine Or.inr (Or.inr ?_)
              rw [done_error_inv he]
              exact hsub e0 (by simp [actErrors])
          · exact absurd h (by simp)
  | wake j now =>
      simp only [sysStep] at h
      split at h
      · rename_i d heq
        by_cases ht : d ≤ now
        · rw [if_pos ht] at h
          injection h with h
          subst h
          intro pc hm e he
          rcases List.mem_or_eq_of_mem_set hm with hm | rfl
          · exact hE pc hm e he
          · exact Or.inr (Or.inl (done_error_inv he))
        · rw [if_neg ht] at h
          by_cases hsd : s.pool.shutdown = true
          · rw [if_pos hsd] at h
            injection h with h
            subst h
            intro pc hm e he
            rcases List.mem_or_eq_of_mem_set hm with hm | rfl
            · exact hE pc hm e he
            · exact Or.inl (done_error_inv he)
          · rw [if_neg hsd] at h
            simp only [Option.some.injEq] at h
            subst h
            intro pc hm e he
            rcases List.mem_or_eq_of_mem_set hm with hm | rfl
            · exact hE pc hm e he
            · exact absurd he (loopBody_snd_ne_done _ _ _ _)
      · exact absurd h (by simp)
  | releaseLease j =>
      simp only [sysStep] at h
      split at h
      · injection h with h
        subst h
        exact hE
      · exact absurd h (by simp)
  | drain =>
      simp only [sysStep] at h
      injection h with h
      subst h
      exact hE
  | shutdownAct =>
      simp only [sysStep] at h
      injection h with h
      subst h
      exact hE

theorem actErrors_cons (a : Act) (acts : List Act) :
    actErrors (a :: acts) = actErrors [a] ++ actErrors acts := by
  rw [show (a :: acts) = [a] ++ acts from rfl]
  exact List.filterMap_append _ _ _

theorem ErrOk_run {cfg : PoolConfig} {acts : List Act} {s s' : Sys}
    {E : List DbError}
    (hE : ErrOk E s) (hsub : ∀ e ∈ actErrors acts, e ∈ E)
    (h : runSys cfg acts s = some s') : ErrOk E s' := by
  induction acts generalizing s with
  | nil =>
      simp only [runSys] at h
      injection h with h
      subst h
      exact hE
  | cons a acts ih =>
      simp only [runSys] at h
      cases hstep : sysStep cfg a s with
      | none => rw [hstep] at h; exact absurd h (by simp)
      | some s1 =>
          rw [hstep] at h
          refine ih (ErrOk_step hE hstep fun e hm => hsub e ?_) (fun e hm => hsub e ?_) h
          · rw [actErrors_cons]
            exact List.mem_append_left _ hm
          · rw [actErrors_cons]
            exact List.mem_append_right _ hm

/-- C3: when validation of an idle connection fails (and the pool is not
shut down), the re-locked section rolls the `activeCount` reservation back
and immediately runs the next loop iteration of the *same* call with the
*same* deadline; the failed connection is discarded — afterwards it is in no
idle list, no lease and no thread, and stays out under every continuation
that does not re-create it — and no validation-failure error value exists:
every error `acquire` ever returns is `PoolShutdown`, `AcquireTimeout`, or a
factory error (so deadline exhaustion surfaces as `AcquireTimeout`). -/
theorem validation_failure_discard (cfg : PoolConfig)
    (create : Nat → Except DbError Conn) (s s' : Sys) (i : Nat) (c : Conn)
    (d : Nat)
    (hval : cfg.validateOnAcquire = true)
    (hbad : validateConnection c = false)
    (hpc : s.threads.get? i = some (.validating c d))
    (hsd : s.pool.shutdown = false)
    (hstep : sysStep cfg (.postValidate i) s = some s')
    (hidle : c ∉ s.pool.idle)
    (hlease : c ∉ s.leases)
    (hoth : ∀ j pc, j ≠ i → s.threads.get? j = some pc →
      pcHolds c pc = false) :
    s'.pool = (loopBody cfg d
        { s.pool with activeCount := flooredDec s.pool.activeCount }).1 ∧
    deadlineOf ((loopBody cfg d
        { s.pool with activeCount := flooredDec s.pool.activeCount }).2)
      = some d ∧
    ConnFree c s' ∧
    (∀ acts s2, (∀ a ∈ acts, injects c a = false) →
      runSys cfg acts s' = some s2 → ConnFree c s2) ∧
    (∀ acts s2, runSys cfg acts (initSys cfg create) = some s2 →
      ∀ pc ∈ s2.threads, ∀ e, pc = .done (.error e) →
        e = poolShutdownError ∨ e = acquireTimeoutError ∨
          e ∈ actErrors acts) := by
  have hilt : i < s.threads.length := (List.get?_eq_some.mp hpc).1
  simp only [sysStep, hpc] at hstep
  rw [if_neg (by simp [hsd])] at hstep
  rw [if_pos (by simp [hval, hbad])] at hstep
  simp only [Option.some.injEq] at hstep
  subst hstep
  obtain ⟨hi2, hp2⟩ :=
    ConnFree_loopBody (p :=
      { s.pool with activeCount := flooredDec s.pool.activeCount }) cfg d hidle
  have hfree : ConnFree c
      { s with
        pool := (loopBody cfg d
          { s.pool with activeCount := flooredDec s.pool.activeCount }).1,
        threads := s.threads.set i (loopBody cfg d
          { s.pool with activeCount := flooredDec s.pool.activeCount }).2 } := by
    refine ⟨hi2, hlease, fun pc hm => ?_⟩
    obtain ⟨j, hj⟩ := List.mem_iff_get?.mp hm
    rcases get?_set_cases hilt hj with ⟨rfl, rfl⟩ | ⟨hij, hj2⟩
    · exact hp2
    · exact hoth j pc hij hj2
  refine ⟨rfl, deadlineOf_loopBody _ _ _, hfree,
    fun acts s2 hni h2 => ConnFree_run hfree hni h2, ?_⟩
  intro acts s2 h2
  exact ErrOk_run (E := actErrors acts) (fun pc hm => by simp [initSys] at hm)
    (fun e hm => hm) h2

/-- C3 witness: connection ⟨0, false, true⟩ fails validation (it is
disconnected); after the discard-and-retry step it is gone from the whole
system. -/
theorem validation_failure_discard_witness :
    ConnFree ⟨0, false, true⟩
      { pool := { idle := [], activeCount := 0, pendingCreates := 1,
                  shutdown := false },
        threads := [.creating 7], leases := [], log := [] } :=
  (validation_failure_discard ⟨"cs", 1, 0, 100, 100, true⟩
      (fun _ => .ok ⟨1, true, true⟩)
      { pool := { idle := [], activeCount := 1, pendingCreates := 0,
                  shutdown := false },
        threads := [.validating ⟨0, false, true⟩ 7], leases := [], log := [] }
      { pool := { idle := [], activeCount := 0, pendingCreates := 1,
                  shutdown := false },
        threads := [.creating 7], leases := [], log := [] }
      0 ⟨0, false, true⟩ 7 rfl rfl rfl rfl rfl (by simp) (by simp)
      (by
        intro j pc hj hg
        cases j with
        | zero => exact absurd rfl hj
        | succ n => exact absurd hg (by simp [List.get?]))).2.2.1




/-- C6: `release` is idempotent.  A second `release` (or the destructor
after an explicit `release`) changes nothing: the pool state is untouched
and no notification happens, so `activeCount` is decremented at most once
and the connection is never pushed onto `idle` twice; a release with no
connection held leaves the pool state untouched; after any release the
handle is empty. -/
theorem lease_release_idempotent (pc : PooledConnection) (p : PoolSt)
    (c : Conn) :
    ((pc.release p).1.release (pc.release p).2.1).2.1 = (pc.release p).2.1 ∧
    ((pc.release p).1.release (pc.release p).2.1).2.2 = [] ∧
    (pc.conn = none → (pc.release p).2.1 = p) ∧
    (pc.conn = some c → pc.hasState = true → 0 < p.activeCount →
      (pc.release p).2.1.activeCount = p.activeCount - 1) ∧
    (pc.conn = some c → pc.hasState = true → p.shutdown = false →
      c.connected = true → (pc.release p).2.1.idle = p.idle ++ [c]) ∧
    (pc.release p).1.conn = none := by
  obtain ⟨hs, oc⟩ := pc
  cases oc with
  | none =>
      refine ⟨rfl, rfl, fun _ => rfl, ?_, ?_, rfl⟩ <;>
        exact fun hcc => absurd hcc (by simp)
  | some c2 =>
      cases hs with
      | false =>
          refine ⟨rfl, rfl, ?_, ?_, ?_, rfl⟩
          · exact fun hcc => absurd hcc (by simp)
          · exact fun _ hst => absurd hst (by simp)
          · exact fun _ hst => absurd hst (by simp)
      | true =>
          refine ⟨rfl, rfl, ?_, ?_, ?_, rfl⟩
          · exact fun hcc => absurd hcc (by simp)
          · intro hcc _ hact
            have hc2 : c2 = c := by
              simpa using hcc
            subst hc2
            exact (releaseLocked_shape p c2 hact).2.1
          · intro hcc _ hsd hconn
            have hc2 : c2 = c := by
              simpa using hcc
            subst hc2
            show (releaseLocked p c2).idle = p.idle ++ [c2]
            simp [releaseLocked, hsd, hconn]

/-- C6 witness: releasing a live lease on connection 2 into a live pool
appends it to idle; instantiating the idempotence theorem concretely. -/
theorem lease_release_idempotent_witness :
    (PooledConnection.release ⟨true, some ⟨2, true, true⟩⟩
        { idle := [], activeCount := 1, pendingCreates := 0,
          shutdown := false }).2.1.idle = [] ++ [(⟨2, true, true⟩ : Conn)] :=
  (lease_release_idempotent ⟨true, some ⟨2, true, true⟩⟩
      { idle := [], activeCount := 1, pendingCreates := 0, shutdown := false }
      ⟨2, true, true⟩).2.2.2.2.1 rfl rfl rfl rfl

/-- C9: move-assigning onto a lease that still holds a connection first
releases the held connection — decrementing `activeCount` and re-idling it
when the pool is live and the connection connected, discarding it when the
pool is shut down, in both cases waking one waiter — then the target takes
over the source's connection and state reference, and the source is left
empty so that its destructor's `release` is a no-op on any pool state. -/
theorem lease_move_assign (target src : PooledConnection) (p q : PoolSt)
    (c : Conn) :
    (target.moveAssign src p).1 = ⟨src.hasState, src.conn⟩ ∧
    (target.moveAssign src p).2.1 = ⟨false, none⟩ ∧
    (target.moveAssign src p).2.2.1 = (target.release p).2.1 ∧
    (target.moveAssign src p).2.2.2 = (target.release p).2.2 ∧
    ((target.moveAssign src p).2.1.release q) = (⟨false, none⟩, q, []) ∧
    (target.conn = some c → target.hasState = true → p.shutdown = false →
      c.connected = true → 0 < p.activeCount →
      (target.moveAssign src p).2.2.1.idle = p.idle ++ [c] ∧
      (target.moveAssign src p).2.2.1.activeCount = p.activeCount - 1 ∧
      (target.moveAssign src p).2.2.2 = [.notifyOne]) ∧
    (target.conn = some c → target.hasState = true → p.shutdown = true →
      (target.moveAssign src p).2.2.1.idle = p.idle ∧
      (target.moveAssign src p).2.2.2 = [.notifyOne]) ∧
    (target.conn = none →
      (target.moveAssign src p).2.2.1 = p ∧
      (target.moveAssign src p).2.2.2 = []) := by
  obtain ⟨hs, oc⟩ := target
  cases oc with
  | none =>
      refine ⟨rfl, rfl, rfl, rfl, rfl, ?_, ?_, fun _ => ⟨rfl, rfl⟩⟩ <;>
        exact fun hcc => absurd hcc (by simp)
  | some c2 =>
      cases hs with
      | false =>
          refine ⟨rfl, rfl, rfl, rfl, rfl, ?_, ?_, ?_⟩
          · exact fun _ hst => absurd hst (by simp)
          · exact fun _ hst => absurd hst (by simp)
          · exact fun hcc => absurd hcc (by simp)
      | true =>
          refine ⟨rfl, rfl, rfl, rfl, rfl, ?_, ?_, ?_⟩
          · intro hcc _ hsd hconn hact
            have hc2 : c2 = c := by
              simpa using hcc
            subst hc2
            refine ⟨?_, ?_, rfl⟩
            · show (releaseLocked p c2).idle = p.idle ++ [c2]
              simp [releaseLocked, hsd, hconn]
            · exact (releaseLocked_shape p c2 hact).2.1
          · intro hcc _ hsd
            have hc2 : c2 = c := by
              simpa using hcc
            subst hc2
            refine ⟨?_, rfl⟩
            show (releaseLocked p c2).idle = p.idle
            simp [releaseLocked, hsd]
          · exact fun hcc => absurd hcc (by simp)

/-- C9 witness: moving a live lease (connection 8) onto a live lease
(connection 3) of a live pool re-idles connection 3, decrements
`activeCount`, notifies one waiter, and the new target holds connection 8. -/
theorem lease_move_assign_witness :
    (PooledConnection.moveAssign ⟨true, some ⟨3, true, true⟩⟩
          ⟨true, some ⟨8, true, true⟩⟩
          { idle := [], activeCount := 2, pendingCreates := 0,
            shutdown := false }).2.2.1.idle
        = [] ++ [(⟨3, true, true⟩ : Conn)] ∧
    (PooledConnection.moveAssign ⟨true, some ⟨3, true, true⟩⟩
          ⟨true, some ⟨8, true, true⟩⟩
          { idle := [], activeCount := 2, pendingCreates := 0,
            shutdown := false }).2.2.1.activeCount = 2 - 1 ∧
    (PooledConnection.moveAssign ⟨true, some ⟨3, true, true⟩⟩
          ⟨true, some ⟨8, true, true⟩⟩
          { idle := [], activeCount := 2, pendingCreates := 0,
            shutdown := false }).2.2.2 = [.notifyOne] :=
  (lease_move_assign ⟨true, some ⟨3, true, true⟩⟩ ⟨true, some ⟨8, true, true⟩⟩
      { idle := [], activeCount := 2, pendingCreates := 0, shutdown := false }
      { idle := [], activeCount := 0, pendingCreates := 0, shutdown := false }
      ⟨3, true, true⟩).2.2.2.2.2.1 rfl rfl rfl rfl (by decide)

theorem warmUp_length_lt (create : Nat → Except DbError Conn) (n i : Nat)
    (hi : i < n) (e : DbError) (he : create i = .error e) :
    (warmUp create n).length < n := by
  induction n with
  | zero => omega
  | succ n ih =>
      simp only [warmUp, List.length_append]
      by_cases hin : i = n
      · subst hin
        rw [he]
        have := warmUp_length_le create i
        simp only [List.length_nil]
        omega
      · have := ih (by omega)
        cases create n <;> simp only [List.length_cons, List.length_nil] <;>
          omega

/-- C8: construction calls the factory `minSize` times and pushes each
success onto `idle`; it always yields a pool (there is no failure path),
with zero counters and `shutdown = false`; when some warm-up create fails
the pool starts with strictly fewer than `minSize` idle connections; and the
factory failure surfaces only lazily, on the first acquire that takes the
creation path. -/
theorem construction_warmup (cfg : PoolConfig)
    (create : Nat → Except DbError Conn) (i : Nat) (e : DbError) :
    (mkPool cfg create).idle.length ≤ cfg.minSize ∧
    (mkPool cfg create).activeCount = 0 ∧
    (mkPool cfg create).pendingCreates = 0 ∧
    (mkPool cfg create).shutdown = false ∧
    (i < cfg.minSize → create i = .error e →
      (mkPool cfg create).idle.length < cfg.minSize) ∧
    (0 < cfg.maxSize → (mkPool cfg create).idle = [] →
      runSys cfg [.startAcquire 0 100, .postCreate 0 (.error e)]
          (initSys cfg create) =
        some { pool := { idle := [], activeCount := 0, pendingCreates := 0,
                         shutdown := false },
               threads := [.done (.error e)], leases := [],
               log := [.notifyOne] }) := by
  refine ⟨warmUp_length_le create cfg.minSize, rfl, rfl, rfl,
    fun hi he => warmUp_length_lt create cfg.minSize i hi e he, ?_⟩
  intro hmax hnil
  have hinit : initSys cfg create =
      { pool := { idle := [], activeCount := 0, pendingCreates := 0,
                  shutdown := false },
        threads := [], leases := [], log := [] } := by
    simp only [initSys, mkPool]
    rw [show warmUp create cfg.minSize = [] from hnil]
  rw [hinit]
  simp only [runSys, sysStep]
  rw [if_neg (by simp)]
  have hlb : loopBody cfg (0 + 100)
      ({ idle := [], activeCount := 0, pendingCreates := 0,
         shutdown := false } : PoolSt) =
      ({ idle := [], activeCount := 0, pendingCreates := 1,
         shutdown := false }, .creating (0 + 100)) := by
    rcases loopBody_cases cfg (0 + 100)
        { idle := [], activeCount := 0, pendingCreates := 0,
          shutdown := false } with
      ⟨c2, hl2, _, _⟩ | ⟨_, hlt, he2⟩ | ⟨_, hlt, he2⟩
    · exact absurd hl2 (by simp)
    · rw [he2]
    · exact absurd hmax (by simpa [PoolSt.total] using hlt)
  rw [hlb]
  rfl

/-- C8 witness: a two-connection warm-up where the first create fails and
the second succeeds yields one idle connection (fewer than minSize = 2). -/
theorem construction_warmup_witness :
    (mkPool ⟨"cs", 3, 2, 100, 100, true⟩
        (fun n => if n = 0 then .error ⟨"connect: refused", "", 0⟩
                  else .ok ⟨n, true, true⟩)).idle.length
      < (⟨"cs", 3, 2, 100, 100, true⟩ : PoolConfig).minSize :=
  (construction_warmup ⟨"cs", 3, 2, 100, 100, true⟩
      (fun n => if n = 0 then .error ⟨"connect: refused", "", 0⟩
                else .ok ⟨n, true, true⟩)
      0 ⟨"connect: refused", "", 0⟩).2.2.2.2.1 (by decide) rfl

end PoolSpec
